import Mathlib

/-!
Shallow embedding of the WhatsApp .ke-domain bot (src/main.py): the domain
query parser, the domain-lookup cache and batch availability checker, the
result formatter, the per-user conversation state machine, and the message
status store.  Python strings are modelled as `List Char`; Python dicts that
are used as ordered key/value maps are modelled as association lists in
insertion order.  The external availability API is modelled as a function
from domain to response (`ApiResponse`), one fixed external world per batch
call; outbound sends are modelled by accumulating the produced messages.
-/

namespace DomainBot

/-- Python strings, modelled as lists of characters. -/
abbrev Str := List Char

/-- Convert a Lean string literal to the `Str` model. -/
def str (s : String) : Str := s.data

/-- ASCII model of `str.lower` on a single character. -/
def pyLowerChar (c : Char) : Char :=
  if 'A' ≤ c ∧ c ≤ 'Z' then Char.ofNat (c.toNat + 32) else c

/-- Python `str.strip` whitespace class (ASCII part). -/
def isSpaceChar (c : Char) : Bool :=
  c = ' ' || c = '\t' || c = '\n' || c = '\r' || c = Char.ofNat 11 || c = Char.ofNat 12

/-- `text.strip()`: drop whitespace from both ends. -/
def pyStrip (s : Str) : Str :=
  ((s.dropWhile isSpaceChar).reverse.dropWhile isSpaceChar).reverse

/-- `text.lower()` (ASCII model). -/
def pyLower (s : Str) : Str := s.map pyLowerChar

/-- Decimal rendering of a natural number, for f-string interpolation. -/
def natStr (n : Nat) : Str := (toString n).data

/-- The character class `[a-z0-9-]` of the domain regexes. -/
def isBaseChar (c : Char) : Bool :=
  ('a' ≤ c && c ≤ 'z') || ('0' ≤ c && c ≤ '9') || c = '-'

/-- `DOMAIN_EXTENSIONS`: the ordered dict of supported extensions
(keys carry the leading dot) with their descriptions. -/
def DOMAIN_EXTENSIONS : List (Str × Str) :=
  [ (str ".ke",      str " General Kenya domains"),
    (str ".co.ke",   str " Commercial organizations"),
    (str ".or.ke",   str " Non-profit organizations"),
    (str ".ac.ke",   str " Academic institutions"),
    (str ".go.ke",   str " Government entities"),
    (str ".ne.ke",   str " Network providers"),
    (str ".sc.ke",   str " Scientific organizations"),
    (str ".me.ke",   str " Personal domains"),
    (str ".info.ke", str " Information sites") ]

/-- The alternation of the `full_domain` regex
`^([a-z0-9-]+)\.(ke|co\.ke|or\.ke|ac\.ke|go\.ke|ne\.ke|sc\.ke|me\.ke|info\.ke)$`
(extensions without the leading dot). -/
def fullExtensionAlts : List Str :=
  [ str "ke", str "co.ke", str "or.ke", str "ac.ke", str "go.ke",
    str "ne.ke", str "sc.ke", str "me.ke", str "info.ke" ]

/-- The alternation of the `partial_extension` regex
`^([a-z0-9-]+)\.(co|or|ac|go|ne|sc|me|info)$`. -/
def partialExtensionAlts : List Str :=
  [ str "co", str "or", str "ac", str "go", str "ne", str "sc", str "me", str "info" ]

/-- Split a string at its first dot: `(prefixBeforeDot, some rest)` when a dot
occurs, `(s, none)` otherwise.  Because the regex group `([a-z0-9-]+)` cannot
contain a dot, the literal `\.` of the domain regexes can only match the first
dot of the input, so regex matching reduces to this split. -/
def splitAtDot : Str → Str × Option Str
  | [] => ([], none)
  | c :: cs =>
    if c = '.' then ([], some cs)
    else
      let r := splitAtDot cs
      (c :: r.1, r.2)

/-- `DOMAIN_PATTERNS['full_domain'].match`: the anchored regex matches exactly
when the text before the first dot is a nonempty `[a-z0-9-]+` group and the
remainder after that dot is one of the alternation's extensions. -/
def fullDomainMatch (s : Str) : Option (Str × Str) :=
  match splitAtDot s with
  | (b, some e) =>
    if b ≠ [] ∧ b.all isBaseChar ∧ e ∈ fullExtensionAlts then some (b, e) else none
  | (_, none) => none

/-- `DOMAIN_PATTERNS['partial_extension'].match`, by the same reduction. -/
def partialExtensionMatch (s : Str) : Option (Str × Str) :=
  match splitAtDot s with
  | (b, some e) =>
    if b ≠ [] ∧ b.all isBaseChar ∧ e ∈ partialExtensionAlts then some (b, e) else none
  | (_, none) => none

/-- `DOMAIN_PATTERNS['base_domain'].match`: `^([a-z0-9-]+)$`. -/
def baseDomainMatch (s : Str) : Bool :=
  decide (s ≠ []) && s.all isBaseChar

/-- Result of `parse_domain_input`, mirroring the returned dict's
`type` / `base` / `extension` / `domains_to_check` / `error` fields. -/
inductive ParsedQuery where
  | fullDomain (base extension : Str) (domains_to_check : List Str)
  | partialExtension (base extension : Str) (domains_to_check : List Str)
  | baseDomain (base : Str) (domains_to_check : List Str)
  | invalid (error : Str)
deriving DecidableEq

/-- `parse_domain_input`: strip and lower the text, then try full domain,
partial extension and bare base name in that order; first match wins. -/
def parse_domain_input (text : Str) : ParsedQuery :=
  let text := pyLower (pyStrip text)
  match fullDomainMatch text with
  | some (b, e) => .fullDomain b e [text]
  | none =>
    match partialExtensionMatch text with
    | some (b, p) =>
      let fullExt := p ++ str ".ke"
      .partialExtension b fullExt [b ++ str "." ++ fullExt]
    | none =>
      if baseDomainMatch text then
        .baseDomain text (DOMAIN_EXTENSIONS.map (fun p => text ++ p.1))
      else
        .invalid (str "Invalid domain format")

/-- The base name stored in a successful parse, `none` for `invalid`. -/
def parsedBase : ParsedQuery → Option Str
  | .fullDomain b _ _ => some b
  | .partialExtension b _ _ => some b
  | .baseDomain b _ => some b
  | .invalid _ => none

/-- The `domains_to_check` list of a successful parse, `[]` for `invalid`. -/
def parsedDomains : ParsedQuery → List Str
  | .fullDomain _ _ ds => ds
  | .partialExtension _ _ ds => ds
  | .baseDomain _ ds => ds
  | .invalid _ => []

example : parse_domain_input (str "Elijah.co.KE") =
    .fullDomain (str "elijah") (str "co.ke") [str "elijah.co.ke"] := by decide

example : parse_domain_input (str " my-blog.info ") =
    .partialExtension (str "my-blog") (str "info.ke") [str "my-blog.info.ke"] := by decide

example : parse_domain_input (str "abc$def") = .invalid (str "Invalid domain format") := by
  decide

/-- `is_greeting`: the fixed greeting-word list. -/
def greetings : List Str :=
  [ str "hi", str "hello", str "hey", str "hii", str "helloo", str "start",
    str "begin", str "menu", str "main", str "home", str "help", str "hola",
    str "jambo", str "habari" ]

/-- Boolean test that `pat` starts the list `s`. -/
def leadsWith : Str → Str → Bool
  | [], _ => true
  | _ :: _, [] => false
  | a :: as, b :: bs => a == b && leadsWith as bs

/-- Python `pat in s`: `pat` occurs as a contiguous substring of `s`. -/
def hasSub (pat : Str) : Str → Bool
  | [] => pat.isEmpty
  | s@(_ :: t) => leadsWith pat s || hasSub pat t

/-- `is_greeting`: exact match in the greeting list, or trimmed length ≤ 3,
or the text contains a time-of-day greeting phrase. -/
def is_greeting (text : Str) : Bool :=
  let text_clean := pyLower (pyStrip text)
  text_clean ∈ greetings || text_clean.length ≤ 3 ||
    [str "good morning", str "good afternoon", str "good evening"].any
      (fun g => hasSub g text_clean)

/-- Hexadecimal digit (uppercase), as produced by `urllib.parse.quote`. -/
def hexDigit (n : Nat) : Char :=
  if n < 10 then Char.ofNat (48 + n) else Char.ofNat (55 + n)

/-- `urllib.parse.quote` on one character (ASCII model): unreserved characters
and `/` (the default `safe` set) pass through, the rest are percent-encoded. -/
def quoteChar (c : Char) : Str :=
  if c.isAlphanum || c = '_' || c = '.' || c = '-' || c = '~' || c = '/' then [c]
  else ['%', hexDigit (c.toNat / 16 % 16), hexDigit (c.toNat % 16)]

/-- `urllib.parse.quote` (ASCII model). -/
def urlQuote (s : Str) : Str := s.flatMap quoteChar

/-- A domain availability record: the `data` payload of a successful lookup,
with the fields the bot reads (`available`, `price`, and the `domain` key the
checker writes before caching). -/
structure DomainRecord where
  domain : Str
  available : Bool
  price : Option Str
deriving DecidableEq

/-- One entry of the `errors` bucket: `{"domain": ..., "error": ...}`. -/
structure ErrorEntry where
  domain : Str
  error : Str
deriving DecidableEq

/-- `BatchResult`: the three buckets built by `check_domains_batch`. -/
structure BatchResult where
  available : List DomainRecord
  unavailable : List DomainRecord
  errors : List ErrorEntry
deriving DecidableEq

/-- The response of the external availability API for one GET, mirroring the
branches of `check_domains_batch`: HTTP 200 with logical success and a data
payload; HTTP 200 with logical failure (`error` field, possibly absent); a
non-200 status; `asyncio.TimeoutError`; any other exception. -/
inductive ApiResponse where
  | success (data : DomainRecord)
  | apiError (err : Option Str)
  | httpError (status : Nat)
  | timeout
  | exn (msg : Str)

/-- The external world: one response per domain (the batch loop issues one
fresh GET per uncached domain). -/
abbrev ApiEnv := Str → ApiResponse

/-- The request parameters built for an uncached domain:
`{"domain": quote(domain), "include_pricing": "true", "include_suggestions": "false"}`. -/
structure LookupRequest where
  domain : Str
  include_pricing : Bool
  include_suggestions : Bool
deriving DecidableEq

/-- `domain_cache`: dict from domain to its cached record, in insertion order. -/
abbrev Cache := List (Str × DomainRecord)

/-- Dict lookup on the association-list model (first matching key). -/
def findRec (c : Cache) (d : Str) : Option DomainRecord :=
  match c with
  | [] => none
  | (k, r) :: t => if k = d then some r else findRec t d

/-- The mutable state of one `check_domains_batch` run: the accumulated
buckets, the cache, and the external requests issued so far. -/
structure BatchAcc where
  results : BatchResult
  cache : Cache
  requests : List LookupRequest
deriving DecidableEq

/-- One iteration of the `for domain in domains` loop of
`check_domains_batch`: cache hit routes by the cached `available` flag with no
request; otherwise a request is issued and the response routed as in the
source (success caches `data` with its `domain` field set; every failure is
appended to `errors`). -/
def checkOne (env : ApiEnv) (acc : BatchAcc) (domain : Str) : BatchAcc :=
  match findRec acc.cache domain with
  | some cached =>
    if cached.available then
      { acc with results.available := acc.results.available ++ [cached] }
    else
      { acc with results.unavailable := acc.results.unavailable ++ [cached] }
  | none =>
    let req : LookupRequest :=
      { domain := urlQuote domain, include_pricing := true, include_suggestions := false }
    match env domain with
    | .success data =>
      let data := { data with domain := domain }
      if data.available then
        { results := { acc.results with available := acc.results.available ++ [data] },
          cache := acc.cache ++ [(domain, data)],
          requests := acc.requests ++ [req] }
      else
        { results := { acc.results with unavailable := acc.results.unavailable ++ [data] },
          cache := acc.cache ++ [(domain, data)],
          requests := acc.requests ++ [req] }
    | .apiError e =>
      { acc with
        results.errors := acc.results.errors ++ [⟨domain, e.getD (str "API error")⟩],
        requests := acc.requests ++ [req] }
    | .httpError status =>
      { acc with
        results.errors := acc.results.errors ++ [⟨domain, str "HTTP " ++ natStr status⟩],
        requests := acc.requests ++ [req] }
    | .timeout =>
      { acc with
        results.errors := acc.results.errors ++ [⟨domain, str "Request timeout"⟩],
        requests := acc.requests ++ [req] }
    | .exn msg =>
      { acc with
        results.errors := acc.results.errors ++ [⟨domain, msg⟩],
        requests := acc.requests ++ [req] }

/-- `check_domains_batch(domains)`: fold the per-domain step over the input
list, starting from empty buckets, the current cache and no requests. -/
def check_domains_batch (env : ApiEnv) (cache : Cache) (domains : List Str) : BatchAcc :=
  domains.foldl (checkOne env) ⟨⟨[], [], []⟩, cache, []⟩

/-- Domains of the `available` bucket. -/
def availDoms (r : BatchResult) : List Str := r.available.map (fun rec => rec.domain)

/-- Domains of the `unavailable` bucket. -/
def unavailDoms (r : BatchResult) : List Str := r.unavailable.map (fun rec => rec.domain)

/-- Domains of the `errors` bucket. -/
def errDoms (r : BatchResult) : List Str := r.errors.map (fun e => e.domain)

/-- `DOMAIN_EXTENSIONS.get(extension, "Domain")`. -/
def extDesc (extension : Str) : Str :=
  match DOMAIN_EXTENSIONS.find? (fun p => p.1 = extension) with
  | some p => p.2
  | none => str "Domain"

/-- `format_domain_results`: render a batch result.  The price fallback chain
`domain_info.get("price", domain_info.get("pricing", {}).get("first_year", "Contact us"))`
is modelled by the record's optional `price` with default `"Contact us"`. -/
def format_domain_results (results : BatchResult) (base_domain : Str) : Str :=
  let available := results.available
  let unavailable := results.unavailable
  let errors := results.errors
  if available = [] ∧ unavailable = [] then
    str " Sorry, couldn't check domains for '" ++ base_domain ++
      str "' right now. Please try again later."
  else
    let availParts :=
      if available ≠ [] then
        [str " *AVAILABLE DOMAINS*"] ++
        (available.take 5).map (fun info =>
          let domain := info.domain
          let price := info.price.getD (str "Contact us")
          let extension :=
            match splitAtDot domain with
            | (_, some rest) => str "." ++ rest
            | (_, none) => []
          str " *" ++ domain ++ str "*\n   " ++ extDesc extension ++ str "\n    " ++ price)
      else []
    let unavailParts :=
      if unavailable ≠ [] then
        [str "\n *" ++ natStr unavailable.length ++ str " domains unavailable*"] ++
        (if unavailable.length ≤ 3 then
          unavailable.map (fun info => str " " ++ info.domain)
        else [])
      else []
    let errParts :=
      if errors ≠ [] then
        [str "\n " ++ natStr errors.length ++ str " domains couldn't be checked"]
      else []
    let result_message := List.intercalate (str "\n") (availParts ++ unavailParts ++ errParts)
    if available ≠ [] then
      result_message ++
        str "\n\n *Ready to register?*\nChoose a domain above or visit: https://digikenya.co.ke"
    else
      result_message ++ str "\n\n Try different variations of '" ++ base_domain ++
        str "' or visit our website for more options."

/-- A formatted quick-reply button as handed to the platform. -/
structure OutButton where
  id : Str
  title : Str
deriving DecidableEq

/-- One outbound message produced for the dispatcher: recipient, body (already
truncated to the platform limit), buttons and optional replied-to id. -/
structure OutMessage where
  recipient : Str
  body : Str
  buttons : List OutButton
  replyTo : Option Str
deriving DecidableEq

/-- `send_interactive_message`: build the payload handed to the dispatcher —
at most 3 buttons with titles cut to 20 characters and the body cut to 1024
characters, or a plain text body cut to 4096 characters.  The network send
and its credential check are the external collaborator boundary; the model
records the produced message. -/
def send_interactive_message (recipient : Str) (message : Str) (buttons : List (Str × Str))
    (replied_msg_id : Option Str) : OutMessage :=
  if buttons ≠ [] then
    { recipient := recipient, body := message.take 1024,
      buttons := (buttons.take 3).map (fun b => ⟨b.1, b.2.take 20⟩),
      replyTo := replied_msg_id }
  else
    { recipient := recipient, body := message.take 4096, buttons := [], replyTo := replied_msg_id }

/-- Per-user conversation state (`user_states[user]`).  `last_results` is
absent (`none`) until first set, as the key is in the source dict. -/
structure UserState where
  step : Str
  search_history : List Str
  current_domain : Option Str
  preferred_extensions : List Str
  last_results : Option BatchResult
  last_activity : Str
deriving DecidableEq

/-- `get_user_state` defaults for a user with no stored state. -/
def initial_user_state (now : Str) : UserState :=
  { step := str "greeting", search_history := [], current_domain := none,
    preferred_extensions := [], last_results := none, last_activity := now }

/-- The outcome of one bot handler run: messages handed to the dispatcher,
the user's new state, the domain cache, and the external lookups issued. -/
structure BotStep where
  sent : List OutMessage
  state : UserState
  cache : Cache
  requests : List LookupRequest
deriving DecidableEq

/-- `send_welcome_message`: set the step to greeting (with fresh
`last_activity`) and emit the welcome text — built from the first 6 entries
of `DOMAIN_EXTENSIONS` — with the three welcome buttons. -/
def send_welcome_message (state : UserState) (recipient : Str) (replied_msg_id : Option Str)
    (now : Str) : List OutMessage × UserState :=
  let state := { state with step := str "greeting", last_activity := now }
  let extensions_list :=
    List.intercalate (str "\n")
      ((DOMAIN_EXTENSIONS.take 6).map (fun p => str "• *" ++ p.1 ++ str "* - " ++ p.2))
  let welcome_text :=
    str " *Welcome to DigiKenya Smart Domain Bot!*\n\n" ++
    str "I'll help you find the perfect .ke domain quickly and easily.\n\n" ++
    str " *Popular Extensions:*\n" ++
    extensions_list ++ str "\n" ++
    str "...and more!\n\n" ++
    str " *Just type your desired domain name*\n" ++
    str "Examples: 'mycompany', 'john.co.ke', 'myblog'"
  let buttons :=
    [ (str "search_domains", str " Search Now"),
      (str "view_extensions", str " All Extensions"),
      (str "visit_website", str " Visit Website") ]
  ([send_interactive_message recipient welcome_text buttons replied_msg_id], state)

/-- `send_search_prompt`: set the step to searching and emit the prompt. -/
def send_search_prompt (state : UserState) (recipient : Str) (replied_msg_id : Option Str)
    (now : Str) : List OutMessage × UserState :=
  let state := { state with step := str "searching", last_activity := now }
  let prompt_text :=
    str " *What domain would you like to check?*\n\n" ++
    str " *You can search:*\n" ++
    str "• Just the name: `mycompany`\n" ++
    str "• With extension: `mycompany.co.ke`\n" ++
    str "• Partial: `mycompany.co`\n\n" ++
    str "I'll check all available .ke extensions for you! "
  ([send_interactive_message recipient prompt_text [] replied_msg_id], state)

/-- The state recorded when a search begins:
`update_user_state(sender, {"step": "searching", "current_domain": base})`. -/
def beginSearch (state : UserState) (base_domain : Str) (now : Str) : UserState :=
  { state with
    step := str "searching"
    current_domain := some base_domain
    last_activity := now }

/-- `process_domain_search`: parse the input; on invalid input reply with the
format-guidance text and leave the state as it was; otherwise record the
searching state, emit the searching notice, run the batch check, emit the
formatted results with their action buttons, and record the results state
(appending the base name to `search_history`). -/
def process_domain_search (env : ApiEnv) (cache : Cache) (state : UserState)
    (sender : Str) (domain_input : Str) (message_id : Str) (now : Str)
    (show_all : Bool) : BotStep :=
  let parsed := parse_domain_input domain_input
  match parsedBase parsed with
  | none =>
    let error_text :=
      str " *Invalid domain format*\n\n" ++
      str "Please try:\n" ++
      str "• `mycompany` (I'll check all extensions)\n" ++
      str "• `mycompany.co.ke` (specific domain)\n" ++
      str "• `mycompany.co` (I'll add .ke)\n\n" ++
      str "What would you like to search for?"
    { sent := [send_interactive_message sender error_text [] (some message_id)],
      state := state, cache := cache, requests := [] }
  | some base_domain =>
    let domains_to_check := parsedDomains parsed
    let state1 := beginSearch state base_domain now
    let search_count := domains_to_check.length
    let searching_text :=
      str " Searching " ++ natStr search_count ++ str " domain" ++
      (if search_count > 1 then str "s" else []) ++
      str " for '*" ++ base_domain ++ str "*'...\n\nThis may take a moment "
    let m1 := send_interactive_message sender searching_text [] (some message_id)
    let batch := check_domains_batch env cache domains_to_check
    let results := batch.results
    let results_text := format_domain_results results base_domain
    let buttons :=
      (if results.available ≠ [] then [(str "register_domain", str " Register Now")] else []) ++
      (if results.unavailable.length > 0 ∨ results.errors ≠ []
        then [(str "try_variations", str " Try Variations")] else []) ++
      [(str "new_search", str " New Search")]
    let m2 := send_interactive_message sender results_text buttons none
    let state2 :=
      { state1 with
        step := str "results"
        last_results := some results
        search_history := state1.search_history ++ [base_domain]
        last_activity := now }
    { sent := [m1, m2], state := state2, cache := batch.cache, requests := batch.requests }

/-- `text.startswith(("check", "search", "find"))` (case-sensitive). -/
def startsWithSearchWord (text : Str) : Bool :=
  leadsWith (str "check") text || leadsWith (str "search") text || leadsWith (str "find") text

/-- `re.sub(r'^(check|search|find|domain)\s+', '', text, flags=re.IGNORECASE)`:
if the text starts (case-insensitively) with one of the keywords followed by
at least one whitespace character, drop the keyword and that whitespace run.
The four keywords start with distinct letters, so at most one alternative can
match at the anchor. -/
def stripSearchKeyword (text : Str) : Str :=
  let lower := pyLower text
  match [str "check", str "search", str "find", str "domain"].find?
      (fun kw => leadsWith kw lower) with
  | some kw =>
    let rest := text.drop kw.length
    if rest.takeWhile isSpaceChar ≠ [] then rest.dropWhile isSpaceChar else text
  | none => text

/-- `handle_user_message`: the main conversation handler.  Branches, in source
order: greeting; domain-search (step greeting/searching or an explicit
check/search/find prefix); results-step follow-ups ("more"/"other"/
"alternatives" re-run the current domain when one is stored, otherwise the
branch returns with no action; "new"/"different"/"another" send the search
prompt); default: treat the text as a domain search. -/
def handle_user_message (env : ApiEnv) (cache : Cache) (state : UserState)
    (sender : Str) (message_text : Str) (message_id : Str) (now : Str) : BotStep :=
  let text := pyStrip message_text
  let current_step := state.step
  if is_greeting text then
    let r := send_welcome_message state sender (some message_id) now
    { sent := r.1, state := r.2, cache := cache, requests := [] }
  else if current_step = str "greeting" ∨ current_step = str "searching" ∨
      startsWithSearchWord text then
    let domain_text := pyStrip (stripSearchKeyword text)
    if domain_text ≠ [] then
      process_domain_search env cache state sender domain_text message_id now false
    else
      let r := send_search_prompt state sender (some message_id) now
      { sent := r.1, state := r.2, cache := cache, requests := [] }
  else if current_step = str "results" ∧
      pyLower text ∈ [str "more", str "other", str "alternatives"] then
    match state.current_domain with
    | some last_domain =>
      process_domain_search env cache state sender last_domain message_id now true
    | none => { sent := [], state := state, cache := cache, requests := [] }
  else if current_step = str "results" ∧
      pyLower text ∈ [str "new", str "different", str "another"] then
    let r := send_search_prompt state sender (some message_id) now
    { sent := r.1, state := r.2, cache := cache, requests := [] }
  else
    process_domain_search env cache state sender text message_id now false

/-- `MAX_STATUS_RECORDS`. -/
def MAX_STATUS_RECORDS : Nat := 1000

/-- One entry of a record's `status_history`. -/
structure StatusEvent where
  status : Str
  timestamp : Str
deriving DecidableEq

/-- One record of `message_statuses`. -/
structure StatusRecord where
  message_id : Str
  recipient : Str
  status_history : List StatusEvent
  created_at : Str
  last_updated : Str
  metadata : List (Str × Str)
  current_status : Option Str
deriving DecidableEq

/-- `message_statuses`: dict from message id to record, insertion-ordered. -/
abbrev StatusMap := List (Str × StatusRecord)

/-- Dict lookup in the status map. -/
def findStatus (m : StatusMap) (k : Str) : Option StatusRecord :=
  match m with
  | [] => none
  | (k2, r) :: t => if k2 = k then some r else findStatus t k

/-- Python string `<=` (lexicographic). -/
def strLe : Str → Str → Bool
  | [], _ => true
  | _ :: _, [] => false
  | a :: as, b :: bs => if a = b then strLe as bs else decide (a < b)

/-- Stable insertion into a sorted list: the new element goes before the
first element it compares `le` to. -/
def insertBy (le : α → α → Bool) (a : α) : List α → List α
  | [] => [a]
  | b :: bs => if le a b then a :: b :: bs else b :: insertBy le a bs

/-- Stable sort (Python `sorted`) by insertion. -/
def sortBy (le : α → α → Bool) : List α → List α
  | [] => []
  | a :: as => insertBy le a (sortBy le as)

/-- The sort key `lambda k: message_statuses[k].get('last_updated', '')`. -/
def luKey (m : StatusMap) (k : Str) : Str :=
  match findStatus m k with
  | some r => r.last_updated
  | none => []

/-- `del message_statuses[key]`. -/
def delStatusKey (k : Str) (m : StatusMap) : StatusMap :=
  m.filter (fun p => decide (p.1 ≠ k))

/-- The cleanup branch of `store_message_status`: sort the keys by
`last_updated` and delete the oldest 100. -/
def evictOldest (m : StatusMap) : StatusMap :=
  let sorted_keys := sortBy (fun a b => strLe (luKey m a) (luKey m b)) (m.map (fun p => p.1))
  (sorted_keys.take 100).foldl (fun acc k => delStatusKey k acc) m

/-- Append the new status to a record's history and update its
`current_status` and `last_updated`. -/
def pushStatus (r : StatusRecord) (status timestamp : Str) : StatusRecord :=
  { r with
    status_history := r.status_history ++ [⟨status, timestamp⟩]
    current_status := some status
    last_updated := timestamp }

/-- `store_message_status`: evict the 100 oldest records when the map has
reached `MAX_STATUS_RECORDS`, create the record if the id is new, then append
the status to its history. -/
def store_message_status (m : StatusMap) (message_id status recipient timestamp : Str)
    (metadata : Option (List (Str × Str))) : StatusMap :=
  let m := if m.length ≥ MAX_STATUS_RECORDS then evictOldest m else m
  let m :=
    match findStatus m message_id with
    | none =>
      m ++ [(message_id,
        ({ message_id := message_id, recipient := recipient, status_history := [],
           created_at := timestamp, last_updated := timestamp,
           metadata := metadata.getD [], current_status := none } : StatusRecord))]
    | some _ => m
  m.map (fun p => if p.1 = message_id then (p.1, pushStatus p.2 status timestamp) else p)

/-- A stub external world whose every call times out. -/
def envT : ApiEnv := fun _ => ApiResponse.timeout

/-- A stub external world where every domain is available at KES 999. -/
def envOk : ApiEnv := fun _ => ApiResponse.success ⟨[], true, some (str "KES 999")⟩

/-- A stub external world where `"a.ke"` is available and everything else
times out. -/
def envOkKo : ApiEnv := fun d =>
  if d = str "a.ke" then ApiResponse.success ⟨[], true, none⟩ else ApiResponse.timeout

/-- A concrete two-domain batch used by witnesses. -/
def dwitness : List Str := [str "a.ke", str "b.ke"]

/-! ### Lemmas about string normalization and the parser -/

theorem dropWhile_eq_self_of_all {p : Char → Bool} {s : Str}
    (h : ∀ c ∈ s, p c = false) : s.dropWhile p = s := by
  cases s with
  | nil => rfl
  | cons c cs => simp [List.dropWhile, h c (List.mem_cons_self c cs)]

theorem pyStrip_eq_self {s : Str} (h : ∀ c ∈ s, isSpaceChar c = false) :
    pyStrip s = s := by
  unfold pyStrip
  rw [dropWhile_eq_self_of_all h,
    dropWhile_eq_self_of_all (fun c hc => h c (List.mem_reverse.mp hc)),
    List.reverse_reverse]

theorem pyLower_eq_self {s : Str} (h : ∀ c ∈ s, pyLowerChar c = c) :
    pyLower s = s := by
  induction s with
  | nil => rfl
  | cons c cs ih =>
    simp only [pyLower, List.map_cons]
    rw [h c (List.mem_cons_self c cs),
      show List.map pyLowerChar cs = pyLower cs from rfl,
      ih (fun x hx => h x (List.mem_cons_of_mem c hx))]

theorem isBaseChar_ranges {c : Char} (h : isBaseChar c = true) :
    ('a' ≤ c ∧ c ≤ 'z') ∨ ('0' ≤ c ∧ c ≤ '9') ∨ c = '-' := by
  simpa only [isBaseChar, Bool.or_eq_true, Bool.and_eq_true, decide_eq_true_eq,
    or_assoc] using h

theorem isBaseChar_norm {c : Char} (h : isBaseChar c = true) :
    pyLowerChar c = c ∧ isSpaceChar c = false := by
  have h3 := isBaseChar_ranges h
  have h45 : ('-' : Char) ≤ c := by
    rcases h3 with ⟨ha, _⟩ | ⟨ha, _⟩ | rfl
    · exact le_trans (by decide) ha
    · exact le_trans (by decide) ha
    · exact le_refl _
  constructor
  · unfold pyLowerChar
    rw [if_neg]
    rintro ⟨h1, h2⟩
    rcases h3 with ⟨ha, _⟩ | ⟨_, hb⟩ | rfl
    · exact absurd (le_trans ha h2) (by decide)
    · exact absurd (le_trans h1 hb) (by decide)
    · exact absurd h1 (by decide)
  · unfold isSpaceChar
    simp only [Bool.or_eq_false_iff, decide_eq_false_iff_not]
    refine ⟨⟨⟨⟨⟨?_, ?_⟩, ?_⟩, ?_⟩, ?_⟩, ?_⟩ <;>
      { rintro rfl; exact absurd h45 (by decide) }

theorem isBaseChar_ne_dot {c : Char} (h : isBaseChar c = true) : c ≠ '.' := by
  rintro rfl
  exact absurd h (by decide)

theorem fullExtensionAlts_norm :
    ∀ e ∈ fullExtensionAlts, ∀ c ∈ e, pyLowerChar c = c ∧ isSpaceChar c = false := by
  decide

theorem splitAtDot_append (b e : Str) (hb : ∀ c ∈ b, c ≠ '.') :
    splitAtDot (b ++ '.' :: e) = (b, some e) := by
  induction b with
  | nil => simp [splitAtDot]
  | cons c cs ih =>
    have hc : c ≠ '.' := hb c (List.mem_cons_self c cs)
    simp only [List.cons_append, splitAtDot, if_neg hc, List.append_eq,
      ih (fun x hx => hb x (List.mem_cons_of_mem c hx))]

/-- Claim C3: for every supported extension `E` and base name `B` over
`[a-z0-9-]`, `parse_domain_input(B ++ "." ++ E)` yields the full-domain parse
with base `B`, extension `E` and `domains_to_check = [B ++ "." ++ E]`
(the full-domain pattern is tried first and wins). -/
theorem parse_full_domain_eq (b e : Str) (hb : b ≠ []) (hbc : b.all isBaseChar = true)
    (he : e ∈ fullExtensionAlts) :
    parse_domain_input (b ++ str "." ++ e) =
      ParsedQuery.fullDomain b e [b ++ str "." ++ e] := by
  have hchars : ∀ c ∈ b ++ str "." ++ e, pyLowerChar c = c ∧ isSpaceChar c = false := by
    intro c hc
    rw [List.append_assoc] at hc
    rcases List.mem_append.mp hc with hcb | hce
    · exact isBaseChar_norm (List.all_eq_true.mp hbc c hcb)
    · rcases List.mem_append.mp hce with hcd | hce2
      · rw [List.mem_singleton.mp hcd]; exact ⟨by decide, by decide⟩
      · exact fullExtensionAlts_norm e he c hce2
  have hnorm : pyLower (pyStrip (b ++ str "." ++ e)) = b ++ str "." ++ e := by
    rw [pyStrip_eq_self (fun c hc => (hchars c hc).2),
      pyLower_eq_self (fun c hc => (hchars c hc).1)]
  have hsplit : splitAtDot (b ++ str "." ++ e) = (b, some e) := by
    have : b ++ str "." ++ e = b ++ '.' :: e := by
      rw [List.append_assoc]; rfl
    rw [this]
    exact splitAtDot_append b e
      (fun c hc => isBaseChar_ne_dot (List.all_eq_true.mp hbc c hc))
  have hmatch : fullDomainMatch (b ++ str "." ++ e) = some (b, e) := by
    unfold fullDomainMatch
    rw [hsplit]
    exact if_pos ⟨hb, hbc, he⟩
  unfold parse_domain_input
  rw [hnorm]
  simp only [hmatch]

/-- Witness for `parse_full_domain_eq` at `B = "abc"`, `E = "co.ke"`. -/
theorem parse_full_domain_eq_witness :
    (str "abc" ≠ [] ∧ (str "abc").all isBaseChar = true ∧ str "co.ke" ∈ fullExtensionAlts) ∧
      parse_domain_input (str "abc" ++ str "." ++ str "co.ke") =
        ParsedQuery.fullDomain (str "abc") (str "co.ke")
          [str "abc" ++ str "." ++ str "co.ke"] :=
  ⟨⟨by decide, by decide, by decide⟩,
    parse_full_domain_eq (str "abc") (str "co.ke") (by decide) (by decide) (by decide)⟩

/-! ### Claims about process_domain_search (C7, C8) -/

/-- Claim C8: on input whose parse is invalid, `process_domain_search` leaves
the whole user state unchanged (in particular step, current_domain,
search_history and last_results keep their prior values), issues no external
lookup, leaves the cache untouched, and replies with exactly one message
(the format-guidance text). -/
theorem process_domain_search_invalid (env : ApiEnv) (cache : Cache) (state : UserState)
    (sender input mid now : Str) (sa : Bool)
    (h : parsedBase (parse_domain_input input) = none) :
    (process_domain_search env cache state sender input mid now sa).state = state ∧
    (process_domain_search env cache state sender input mid now sa).cache = cache ∧
    (process_domain_search env cache state sender input mid now sa).requests = [] ∧
    (process_domain_search env cache state sender input mid now sa).sent.length = 1 := by
  unfold process_domain_search
  simp [h]

/-- Witness for `process_domain_search_invalid` on the input `"abc$def"`. -/
theorem process_domain_search_invalid_witness :
    parsedBase (parse_domain_input (str "abc$def")) = none ∧
      ((process_domain_search envT [] (initial_user_state (str "t0")) (str "u")
          (str "abc$def") (str "m") (str "t1") false).state = initial_user_state (str "t0") ∧
        (process_domain_search envT [] (initial_user_state (str "t0")) (str "u")
          (str "abc$def") (str "m") (str "t1") false).cache = [] ∧
        (process_domain_search envT [] (initial_user_state (str "t0")) (str "u")
          (str "abc$def") (str "m") (str "t1") false).requests = [] ∧
        (process_domain_search envT [] (initial_user_state (str "t0")) (str "u")
          (str "abc$def") (str "m") (str "t1") false).sent.length = 1) :=
  ⟨by decide, process_domain_search_invalid envT [] (initial_user_state (str "t0")) (str "u")
    (str "abc$def") (str "m") (str "t1") false (by decide)⟩

/-- Claim C7: on input parsing to a valid query with base name `b`, one run of
`process_domain_search` records the searching step while the lookup runs
(`beginSearch`), then finishes in the results step with `current_domain = b`,
`search_history` extended by `b` exactly once, and the batch result stored in
`last_results`. -/
theorem process_domain_search_valid (env : ApiEnv) (cache : Cache) (state : UserState)
    (sender input mid now : Str) (sa : Bool) (b : Str)
    (h : parsedBase (parse_domain_input input) = some b) :
    (beginSearch state b now).step = str "searching" ∧
    (process_domain_search env cache state sender input mid now sa).state.step = str "results" ∧
    (process_domain_search env cache state sender input mid now sa).state.current_domain
      = some b ∧
    (process_domain_search env cache state sender input mid now sa).state.search_history
      = state.search_history ++ [b] ∧
    (process_domain_search env cache state sender input mid now sa).state.last_results
      = some (check_domains_batch env cache
          (parsedDomains (parse_domain_input input))).results ∧
    (process_domain_search env cache state sender input mid now sa).sent.length = 2 := by
  unfold process_domain_search
  simp [h, beginSearch]

/-- Witness for `process_domain_search_valid` on the bare name `"mycompany"`. -/
theorem process_domain_search_valid_witness :
    parsedBase (parse_domain_input (str "mycompany")) = some (str "mycompany") ∧
      ((beginSearch (initial_user_state (str "t0")) (str "mycompany") (str "t1")).step
          = str "searching" ∧
        (process_domain_search envT [] (initial_user_state (str "t0")) (str "u")
          (str "mycompany") (str "m") (str "t1") false).state.step = str "results" ∧
        (process_domain_search envT [] (initial_user_state (str "t0")) (str "u")
          (str "mycompany") (str "m") (str "t1") false).state.current_domain
          = some (str "mycompany") ∧
        (process_domain_search envT [] (initial_user_state (str "t0")) (str "u")
          (str "mycompany") (str "m") (str "t1") false).state.search_history
          = (initial_user_state (str "t0")).search_history ++ [str "mycompany"] ∧
        (process_domain_search envT [] (initial_user_state (str "t0")) (str "u")
          (str "mycompany") (str "m") (str "t1") false).state.last_results
          = some (check_domains_batch envT []
              (parsedDomains (parse_domain_input (str "mycompany")))).results ∧
        (process_domain_search envT [] (initial_user_state (str "t0")) (str "u")
          (str "mycompany") (str "m") (str "t1") false).sent.length = 2) :=
  ⟨by decide, process_domain_search_valid envT [] (initial_user_state (str "t0")) (str "u")
    (str "mycompany") (str "m") (str "t1") false (str "mycompany") (by decide)⟩

/-! ### Claims about the batch checker's cache and requests (C2, C5) -/

/-- The error message recorded for a failed lookup response. -/
def failMsg : ApiResponse → Option Str
  | .success _ => none
  | .apiError e => some (e.getD (str "API error"))
  | .httpError status => some (str "HTTP " ++ natStr status)
  | .timeout => some (str "Request timeout")
  | .exn msg => some msg

theorem checkOne_hit (env : ApiEnv) (acc : BatchAcc) (d : Str) (cached : DomainRecord)
    (hf : findRec acc.cache d = some cached) :
    checkOne env acc d =
      if cached.available then
        { acc with results.available := acc.results.available ++ [cached] }
      else
        { acc with results.unavailable := acc.results.unavailable ++ [cached] } := by
  unfold checkOne
  rw [hf]

theorem checkOne_miss_success (env : ApiEnv) (acc : BatchAcc) (d : Str) (data : DomainRecord)
    (hf : findRec acc.cache d = none) (he : env d = .success data) :
    checkOne env acc d =
      if data.available then
        { results := { acc.results with
            available := acc.results.available ++ [{ data with domain := d }] }
          cache := acc.cache ++ [(d, { data with domain := d })]
          requests := acc.requests ++ [⟨urlQuote d, true, false⟩] }
      else
        { results := { acc.results with
            unavailable := acc.results.unavailable ++ [{ data with domain := d }] }
          cache := acc.cache ++ [(d, { data with domain := d })]
          requests := acc.requests ++ [⟨urlQuote d, true, false⟩] } := by
  unfold checkOne
  rw [hf, he]

theorem checkOne_miss_fail (env : ApiEnv) (acc : BatchAcc) (d : Str) (msg : Str)
    (hf : findRec acc.cache d = none) (he : failMsg (env d) = some msg) :
    checkOne env acc d =
      { acc with
        results.errors := acc.results.errors ++ [⟨d, msg⟩]
        requests := acc.requests ++ [⟨urlQuote d, true, false⟩] } := by
  unfold checkOne
  rw [hf]
  cases henv : env d with
  | success data => rw [henv] at he; simp [failMsg] at he
  | apiError e =>
    rw [henv] at he
    simp only [failMsg, Option.some.injEq] at he
    subst he
    rfl
  | httpError status =>
    rw [henv] at he
    simp only [failMsg, Option.some.injEq] at he
    subst he
    rfl
  | timeout =>
    rw [henv] at he
    simp only [failMsg, Option.some.injEq] at he
    subst he
    rfl
  | exn msg2 =>
    rw [henv] at he
    simp only [failMsg, Option.some.injEq] at he
    subst he
    rfl

theorem findRec_append (c₁ c₂ : Cache) (d : Str) :
    findRec (c₁ ++ c₂) d =
      match findRec c₁ d with
      | some r => some r
      | none => findRec c₂ d := by
  induction c₁ with
  | nil => rfl
  | cons p t ih =>
    obtain ⟨k, r⟩ := p
    by_cases hk : k = d
    · simp [findRec, hk]
    · simp [findRec, hk, ih]

/-- Claim C2: if the first `checkBatch([D])` succeeds through the external
client (uncached `D`, logically successful response), a second
`checkBatch([D])` against any external world — including one that would fail
every call — issues no external request and still buckets `D` into available
or unavailable, purely from the cache. -/
theorem checkBatch_idempotent (env1 env2 : ApiEnv) (c₀ : Cache) (D : Str)
    (data : DomainRecord) (h0 : findRec c₀ D = none) (h1 : env1 D = .success data) :
    (check_domains_batch env2 (check_domains_batch env1 c₀ [D]).cache [D]).requests = [] ∧
    (D ∈ availDoms (check_domains_batch env2
        (check_domains_batch env1 c₀ [D]).cache [D]).results ∨
      D ∈ unavailDoms (check_domains_batch env2
        (check_domains_batch env1 c₀ [D]).cache [D]).results) := by
  have hc1 : (check_domains_batch env1 c₀ [D]).cache
      = c₀ ++ [(D, { data with domain := D })] := by
    show (checkOne env1 ⟨⟨[], [], []⟩, c₀, []⟩ D).cache = _
    rw [checkOne_miss_success env1 ⟨⟨[], [], []⟩, c₀, []⟩ D data h0 h1]
    by_cases hav : data.available <;> simp [hav]
  have hfind : findRec (check_domains_batch env1 c₀ [D]).cache D
      = some { data with domain := D } := by
    rw [hc1, findRec_append, h0]
    simp [findRec]
  have hstep : check_domains_batch env2 (check_domains_batch env1 c₀ [D]).cache [D]
      = checkOne env2 ⟨⟨[], [], []⟩, (check_domains_batch env1 c₀ [D]).cache, []⟩ D := rfl
  rw [hstep, checkOne_hit env2
    ⟨⟨[], [], []⟩, (check_domains_batch env1 c₀ [D]).cache, []⟩ D
    { data with domain := D } hfind]
  by_cases hav : data.available <;> simp [hav, availDoms, unavailDoms]

/-- Witness for `checkBatch_idempotent`: first call against a world where
`"abc.ke"` is available, second call against a world that times out. -/
theorem checkBatch_idempotent_witness :
    (findRec [] (str "abc.ke") = none ∧
      envOk (str "abc.ke") = .success ⟨[], true, some (str "KES 999")⟩) ∧
      ((check_domains_batch envT
          (check_domains_batch envOk [] [str "abc.ke"]).cache [str "abc.ke"]).requests = [] ∧
        (str "abc.ke" ∈ availDoms (check_domains_batch envT
            (check_domains_batch envOk [] [str "abc.ke"]).cache [str "abc.ke"]).results ∨
          str "abc.ke" ∈ unavailDoms (check_domains_batch envT
            (check_domains_batch envOk [] [str "abc.ke"]).cache [str "abc.ke"]).results)) :=
  ⟨⟨by decide, rfl⟩, checkBatch_idempotent envOk envT [] (str "abc.ke")
    ⟨[], true, some (str "KES 999")⟩ (by decide) rfl⟩

theorem checkOne_requests_flags (env : ApiEnv) (acc : BatchAcc) (d : Str)
    (h : ∀ q ∈ acc.requests, q.include_pricing = true ∧ q.include_suggestions = false) :
    ∀ q ∈ (checkOne env acc d).requests,
      q.include_pricing = true ∧ q.include_suggestions = false := by
  cases hf : findRec acc.cache d with
  | some cached =>
    rw [checkOne_hit env acc d cached hf]
    by_cases hav : cached.available = true
    · rw [if_pos hav]; exact h
    · rw [if_neg hav]; exact h
  | none =>
    cases he : env d with
    | success data =>
      rw [checkOne_miss_success env acc d data hf he]
      by_cases hav : data.available = true
      · rw [if_pos hav]
        intro q hq
        rcases List.mem_append.mp hq with hq | hq
        · exact h q hq
        · rw [List.mem_singleton.mp hq]; exact ⟨rfl, rfl⟩
      · rw [if_neg hav]
        intro q hq
        rcases List.mem_append.mp hq with hq | hq
        · exact h q hq
        · rw [List.mem_singleton.mp hq]; exact ⟨rfl, rfl⟩
    | apiError e =>
      rw [checkOne_miss_fail env acc d (e.getD (str "API error")) hf (by rw [he]; rfl)]
      intro q hq
      rcases List.mem_append.mp hq with hq | hq
      · exact h q hq
      · rw [List.mem_singleton.mp hq]; exact ⟨rfl, rfl⟩
    | httpError status =>
      rw [checkOne_miss_fail env acc d (str "HTTP " ++ natStr status) hf (by rw [he]; rfl)]
      intro q hq
      rcases List.mem_append.mp hq with hq | hq
      · exact h q hq
      · rw [List.mem_singleton.mp hq]; exact ⟨rfl, rfl⟩
    | timeout =>
      rw [checkOne_miss_fail env acc d (str "Request timeout") hf (by rw [he]; rfl)]
      intro q hq
      rcases List.mem_append.mp hq with hq | hq
      · exact h q hq
      · rw [List.mem_singleton.mp hq]; exact ⟨rfl, rfl⟩
    | exn msg =>
      rw [checkOne_miss_fail env acc d msg hf (by rw [he]; rfl)]
      intro q hq
      rcases List.mem_append.mp hq with hq | hq
      · exact h q hq
      · rw [List.mem_singleton.mp hq]; exact ⟨rfl, rfl⟩

/-- Claim C5 (amended): every external lookup request issued by
`check_domains_batch` — single-domain and fan-out mode alike — carries the
pricing flag enabled and the suggestions flag disabled. -/
theorem check_domains_batch_flags (env : ApiEnv) (c₀ : Cache) (domains : List Str) :
    ∀ q ∈ (check_domains_batch env c₀ domains).requests,
      q.include_pricing = true ∧ q.include_suggestions = false := by
  unfold check_domains_batch
  suffices h : ∀ (ds : List Str) (acc : BatchAcc),
      (∀ q ∈ acc.requests, q.include_pricing = true ∧ q.include_suggestions = false) →
      ∀ q ∈ (ds.foldl (checkOne env) acc).requests,
        q.include_pricing = true ∧ q.include_suggestions = false by
    exact h domains ⟨⟨[], [], []⟩, c₀, []⟩ (by simp)
  intro ds
  induction ds with
  | nil => intro acc h; simpa using h
  | cons d t ih =>
    intro acc h
    simp only [List.foldl_cons]
    exact ih _ (checkOne_requests_flags env acc d h)

/-- Witness for `check_domains_batch_flags` at the single-domain batch
`["abc.ke"]`, on the request it issues. -/
theorem check_domains_batch_flags_witness :
    (⟨urlQuote (str "abc.ke"), true, false⟩ : LookupRequest)
        ∈ (check_domains_batch envT [] [str "abc.ke"]).requests ∧
      ((⟨urlQuote (str "abc.ke"), true, false⟩ : LookupRequest).include_pricing = true ∧
        (⟨urlQuote (str "abc.ke"), true, false⟩ : LookupRequest).include_suggestions = false) :=
  ⟨by decide, check_domains_batch_flags envT [] [str "abc.ke"]
    ⟨urlQuote (str "abc.ke"), true, false⟩ (by decide)⟩

/-- Claim C5, counterexample: a single-domain (non-fan-out) batch for an
uncached domain issues exactly one request, and its suggestions flag is
disabled — the source hardcodes `include_suggestions = "false"` — so the
suggestions flag is not enabled for single-domain searches as claimed. -/
theorem single_domain_suggestions_disabled :
    ((check_domains_batch envT [] [str "abc.ke"]).requests.map
        (fun q => (q.include_pricing, q.include_suggestions))) = [(true, false)] := by
  decide

/-! ### The batch-loop invariant (C1, C10) -/

/-- The three buckets of a batch result. -/
inductive Bucket where
  | avail
  | unavail
  | err
deriving DecidableEq

/-- Whether a response is a logical success (HTTP 200, success flag true). -/
def isSuccessResp : ApiResponse → Bool
  | .success _ => true
  | _ => false

/-- The bucket a domain is routed to, determined by the cache at batch entry
and the external world: a cached record routes by its flag; otherwise a
successful lookup routes by its payload flag and anything else is an error. -/
def bucketOf (c₀ : Cache) (env : ApiEnv) (d : Str) : Bucket :=
  match findRec c₀ d with
  | some r => if r.available then .avail else .unavail
  | none =>
    match env d with
    | .success data => if data.available then .avail else .unavail
    | _ => .err

/-- Loop invariant of `check_domains_batch` after processing the domains
satisfying `P`, starting from cache `c₀`: the cache keys are self-consistent,
old entries are kept, new entries exist exactly for processed domains with
successful lookups and hold the response payload, and each bucket contains
exactly the processed domains `bucketOf` routes to it. -/
structure BatchInv (c₀ : Cache) (env : ApiEnv) (P : Str → Prop) (acc : BatchAcc) : Prop where
  keyDom : ∀ d r, findRec acc.cache d = some r → r.domain = d
  oldKeep : ∀ d, findRec c₀ d ≠ none → findRec acc.cache d = findRec c₀ d
  newIff : ∀ d, findRec c₀ d = none →
    (findRec acc.cache d ≠ none ↔ P d ∧ isSuccessResp (env d) = true)
  newVal : ∀ d data r, findRec c₀ d = none → env d = .success data →
    findRec acc.cache d = some r → r = { data with domain := d }
  memA : ∀ d, d ∈ availDoms acc.results ↔ P d ∧ bucketOf c₀ env d = .avail
  memU : ∀ d, d ∈ unavailDoms acc.results ↔ P d ∧ bucketOf c₀ env d = .unavail
  memE : ∀ d, d ∈ errDoms acc.results ↔ P d ∧ bucketOf c₀ env d = .err

theorem findRec_snoc_of_some {c : Cache} {x : Str} {r2 : DomainRecord}
    (hfx : findRec c x = some r2) (k : Str) (r : DomainRecord) :
    findRec (c ++ [(k, r)]) x = some r2 := by
  rw [findRec_append, hfx]

theorem findRec_snoc_of_none {c : Cache} {x : Str}
    (hfx : findRec c x = none) (k : Str) (r : DomainRecord) :
    findRec (c ++ [(k, r)]) x = if k = x then some r else none := by
  rw [findRec_append, hfx]
  rfl

theorem mem_bucket_gain {L : List Str} {P : Str → Prop} {B : Str → Bucket} {b : Bucket}
    {d : Str} (hL : ∀ x, x ∈ L ↔ P x ∧ B x = b) (hbd : B d = b) (x : Str) :
    x ∈ L ++ [d] ↔ (P x ∨ x = d) ∧ B x = b := by
  rw [List.mem_append, List.mem_singleton, hL x]
  constructor
  · rintro (⟨hp, hb⟩ | rfl)
    · exact ⟨Or.inl hp, hb⟩
    · exact ⟨Or.inr rfl, hbd⟩
  · rintro ⟨hp | rfl, hb⟩
    · exact Or.inl ⟨hp, hb⟩
    · exact Or.inr rfl

theorem mem_bucket_keep {L : List Str} {P : Str → Prop} {B : Str → Bucket} {b b2 : Bucket}
    {d : Str} (hL : ∀ x, x ∈ L ↔ P x ∧ B x = b) (hbd : B d = b2) (hne : b2 ≠ b) (x : Str) :
    x ∈ L ↔ (P x ∨ x = d) ∧ B x = b := by
  rw [hL x]
  constructor
  · rintro ⟨hp, hb⟩
    exact ⟨Or.inl hp, hb⟩
  · rintro ⟨hp | rfl, hb⟩
    · exact ⟨hp, hb⟩
    · exact absurd (hbd.symm.trans hb) hne

theorem BatchInv.stepFail {c₀ : Cache} {env : ApiEnv} {P : Str → Prop} {acc : BatchAcc}
    (d : Str) (h : BatchInv c₀ env P acc)
    (hf : findRec acc.cache d = none) (h0 : findRec c₀ d = none)
    (msg : Str) (hmsg : failMsg (env d) = some msg) :
    BatchInv c₀ env (fun x => P x ∨ x = d) (checkOne env acc d) := by
  have hsf : isSuccessResp (env d) = false := by
    cases henv : env d with
    | success data => rw [henv] at hmsg; simp [failMsg] at hmsg
    | apiError e => rfl
    | httpError status => rfl
    | timeout => rfl
    | exn m => rfl
  have hbd : bucketOf c₀ env d = Bucket.err := by
    unfold bucketOf
    rw [h0]
    cases henv : env d with
    | success data => rw [henv] at hmsg; simp [failMsg] at hmsg
    | apiError e => rfl
    | httpError status => rfl
    | timeout => rfl
    | exn m => rfl
  rw [checkOne_miss_fail env acc d msg hf hmsg]
  refine ⟨h.keyDom, h.oldKeep, ?_, h.newVal, ?_, ?_, ?_⟩
  · intro x hx
    show findRec acc.cache x ≠ none ↔ _
    rw [h.newIff x hx]
    constructor
    · rintro ⟨hp, hs⟩
      exact ⟨Or.inl hp, hs⟩
    · rintro ⟨hp | rfl, hs⟩
      · exact ⟨hp, hs⟩
      · rw [hsf] at hs
        exact Bool.noConfusion hs
  · intro x
    show x ∈ availDoms acc.results ↔ _
    exact mem_bucket_keep h.memA hbd (by decide) x
  · intro x
    show x ∈ unavailDoms acc.results ↔ _
    exact mem_bucket_keep h.memU hbd (by decide) x
  · intro x
    rw [show errDoms ({ acc with
        results.errors := acc.results.errors ++ [⟨d, msg⟩]
        requests := acc.requests ++ [⟨urlQuote d, true, false⟩] } : BatchAcc).results
        = errDoms acc.results ++ [d] from by simp [errDoms]]
    exact mem_bucket_gain h.memE hbd x

theorem BatchInv.step {c₀ : Cache} {env : ApiEnv} {P : Str → Prop} {acc : BatchAcc}
    (d : Str) (h : BatchInv c₀ env P acc) :
    BatchInv c₀ env (fun x => P x ∨ x = d) (checkOne env acc d) := by
  cases hf : findRec acc.cache d with
  | some cached =>
    have hdom : cached.domain = d := h.keyDom d cached hf
    have hbucket : bucketOf c₀ env d
        = (if cached.available = true then Bucket.avail else Bucket.unavail) := by
      unfold bucketOf
      cases h0 : findRec c₀ d with
      | some r =>
        have hkeep := h.oldKeep d (by rw [h0]; exact fun hcon => Option.noConfusion hcon)
        rw [hf, h0] at hkeep
        injection hkeep with hcr
        subst hcr
        rfl
      | none =>
        obtain ⟨hp, hs⟩ := (h.newIff d h0).mp
          (by rw [hf]; exact fun hcon => Option.noConfusion hcon)
        cases he : env d with
        | success data =>
          have hcd := h.newVal d data cached h0 he hf
          subst hcd
          rfl
        | apiError e => rw [he] at hs; simp [isSuccessResp] at hs
        | httpError status => rw [he] at hs; simp [isSuccessResp] at hs
        | timeout => rw [he] at hs; simp [isSuccessResp] at hs
        | exn msg => rw [he] at hs; simp [isSuccessResp] at hs
    have hnewIff : ∀ x, findRec c₀ x = none →
        (findRec acc.cache x ≠ none ↔ (P x ∨ x = d) ∧ isSuccessResp (env x) = true) := by
      intro x hx
      rw [h.newIff x hx]
      constructor
      · rintro ⟨hp, hs⟩
        exact ⟨Or.inl hp, hs⟩
      · rintro ⟨hp | rfl, hs⟩
        · exact ⟨hp, hs⟩
        · exact (h.newIff x hx).mp (by rw [hf]; exact fun hcon => Option.noConfusion hcon)
    rw [checkOne_hit env acc d cached hf]
    by_cases hav : cached.available = true
    · rw [if_pos hav]
      have hbd : bucketOf c₀ env d = Bucket.avail := by rw [hbucket, if_pos hav]
      refine ⟨h.keyDom, h.oldKeep, hnewIff, h.newVal, ?_, ?_, ?_⟩
      · intro x
        rw [show availDoms ({ acc with
            results.available := acc.results.available ++ [cached] } : BatchAcc).results
            = availDoms acc.results ++ [d] from by simp [availDoms, hdom]]
        exact mem_bucket_gain h.memA hbd x
      · intro x
        show x ∈ unavailDoms acc.results ↔ _
        exact mem_bucket_keep h.memU hbd (by decide) x
      · intro x
        show x ∈ errDoms acc.results ↔ _
        exact mem_bucket_keep h.memE hbd (by decide) x
    · rw [if_neg hav]
      have hbd : bucketOf c₀ env d = Bucket.unavail := by rw [hbucket, if_neg hav]
      refine ⟨h.keyDom, h.oldKeep, hnewIff, h.newVal, ?_, ?_, ?_⟩
      · intro x
        show x ∈ availDoms acc.results ↔ _
        exact mem_bucket_keep h.memA hbd (by decide) x
      · intro x
        rw [show unavailDoms ({ acc with
            results.unavailable := acc.results.unavailable ++ [cached] } : BatchAcc).results
            = unavailDoms acc.results ++ [d] from by simp [unavailDoms, hdom]]
        exact mem_bucket_gain h.memU hbd x
      · intro x
        show x ∈ errDoms acc.results ↔ _
        exact mem_bucket_keep h.memE hbd (by decide) x
  | none =>
    have h0 : findRec c₀ d = none := by
      cases h0 : findRec c₀ d with
      | none => rfl
      | some r =>
        have hkeep := h.oldKeep d (by rw [h0]; exact fun hcon => Option.noConfusion hcon)
        rw [hf, h0] at hkeep
        exact Option.noConfusion hkeep
    cases he : env d with
    | success data =>
      rw [checkOne_miss_success env acc d data hf he]
      have hkeyDom : ∀ x r, findRec (acc.cache ++ [(d, { data with domain := d })]) x = some r
          → r.domain = x := by
        intro x r hxr
        cases hfx : findRec acc.cache x with
        | some r2 =>
          rw [findRec_snoc_of_some hfx _ _] at hxr
          injection hxr with hr
          subst hr
          exact h.keyDom x _ hfx
        | none =>
          rw [findRec_snoc_of_none hfx _ _] at hxr
          by_cases hdx : d = x
          · rw [if_pos hdx] at hxr
            injection hxr with hr
            subst hr
            exact hdx
          · rw [if_neg hdx] at hxr
            exact Option.noConfusion hxr
      have holdKeep : ∀ x, findRec c₀ x ≠ none →
          findRec (acc.cache ++ [(d, { data with domain := d })]) x = findRec c₀ x := by
        intro x hx
        cases h0x : findRec c₀ x with
        | none => exact absurd h0x hx
        | some r =>
          have hax : findRec acc.cache x = some r := by rw [h.oldKeep x hx, h0x]
          rw [findRec_snoc_of_some hax _ _]
      have hnewIff : ∀ x, findRec c₀ x = none →
          (findRec (acc.cache ++ [(d, { data with domain := d })]) x ≠ none
            ↔ (P x ∨ x = d) ∧ isSuccessResp (env x) = true) := by
        intro x hx
        have hnPx : ¬ (P x ∧ isSuccessResp (env x) = true) → findRec acc.cache x = none := by
          intro hn
          cases hfx : findRec acc.cache x with
          | none => rfl
          | some r2 =>
            exact absurd ((h.newIff x hx).mp
              (by rw [hfx]; exact fun hcon => Option.noConfusion hcon)) hn
        cases hfx : findRec acc.cache x with
        | some r2 =>
          rw [findRec_snoc_of_some hfx _ _]
          have hPx := (h.newIff x hx).mp
            (by rw [hfx]; exact fun hcon => Option.noConfusion hcon)
          constructor
          · intro _
            exact ⟨Or.inl hPx.1, hPx.2⟩
          · intro _
            exact fun hcon => Option.noConfusion hcon
        | none =>
          rw [findRec_snoc_of_none hfx _ _]
          have hnPS : ¬ (P x ∧ isSuccessResp (env x) = true) := by
            intro hPS
            exact ((h.newIff x hx).mpr hPS) hfx
          by_cases hdx : d = x
          · rw [if_pos hdx]
            constructor
            · intro _
              refine ⟨Or.inr hdx.symm, ?_⟩
              rw [← hdx, he]
              rfl
            · intro _
              exact fun hcon => Option.noConfusion hcon
          · rw [if_neg hdx]
            constructor
            · intro hne
              exact absurd rfl hne
            · rintro ⟨hp | rfl, hs⟩
              · exact absurd ⟨hp, hs⟩ hnPS
              · exact absurd rfl hdx
      have hnewVal : ∀ x data2 r, findRec c₀ x = none → env x = .success data2 →
          findRec (acc.cache ++ [(d, { data with domain := d })]) x = some r →
          r = { data2 with domain := x } := by
        intro x data2 r hx he2 hfr
        cases hfx : findRec acc.cache x with
        | some r2 =>
          rw [findRec_snoc_of_some hfx _ _] at hfr
          injection hfr with hr
          subst hr
          exact h.newVal x data2 _ hx he2 hfx
        | none =>
          rw [findRec_snoc_of_none hfx _ _] at hfr
          by_cases hdx : d = x
          · rw [if_pos hdx] at hfr
            injection hfr with hr
            subst hr
            subst hdx
            rw [he] at he2
            injection he2 with hd2
            subst hd2
            rfl
          · rw [if_neg hdx] at hfr
            exact Option.noConfusion hfr
      by_cases hav : data.available = true
      · rw [if_pos hav]
        have hbd : bucketOf c₀ env d = Bucket.avail := by
          unfold bucketOf
          rw [h0, he]
          simp [hav]
        refine ⟨hkeyDom, holdKeep, hnewIff, hnewVal, ?_, ?_, ?_⟩
        · intro x
          simp only [availDoms, List.map_append, List.map_cons, List.map_nil]
          exact mem_bucket_gain h.memA hbd x
        · intro x
          show x ∈ unavailDoms acc.results ↔ _
          exact mem_bucket_keep h.memU hbd (by decide) x
        · intro x
          show x ∈ errDoms acc.results ↔ _
          exact mem_bucket_keep h.memE hbd (by decide) x
      · rw [if_neg hav]
        have hbd : bucketOf c₀ env d = Bucket.unavail := by
          unfold bucketOf
          rw [h0, he]
          simp [hav]
        refine ⟨hkeyDom, holdKeep, hnewIff, hnewVal, ?_, ?_, ?_⟩
        · intro x
          show x ∈ availDoms acc.results ↔ _
          exact mem_bucket_keep h.memA hbd (by decide) x
        · intro x
          simp only [unavailDoms, List.map_append, List.map_cons, List.map_nil]
          exact mem_bucket_gain h.memU hbd x
        · intro x
          show x ∈ errDoms acc.results ↔ _
          exact mem_bucket_keep h.memE hbd (by decide) x
    | apiError e =>
      exact BatchInv.stepFail d h hf h0 (e.getD (str "API error")) (by rw [he]; rfl)
    | httpError status =>
      exact BatchInv.stepFail d h hf h0 (str "HTTP " ++ natStr status) (by rw [he]; rfl)
    | timeout =>
      exact BatchInv.stepFail d h hf h0 (str "Request timeout") (by rw [he]; rfl)
    | exn msg =>
      exact BatchInv.stepFail d h hf h0 msg (by rw [he]; rfl)

theorem BatchInv.congr {c₀ : Cache} {env : ApiEnv} {P Q : Str → Prop} {acc : BatchAcc}
    (hpq : ∀ x, P x ↔ Q x) (h : BatchInv c₀ env P acc) : BatchInv c₀ env Q acc := by
  refine ⟨h.keyDom, h.oldKeep, ?_, h.newVal, ?_, ?_, ?_⟩
  · intro x hx
    exact (h.newIff x hx).trans (and_congr_left (fun _ => hpq x))
  · intro x
    exact (h.memA x).trans (and_congr_left (fun _ => hpq x))
  · intro x
    exact (h.memU x).trans (and_congr_left (fun _ => hpq x))
  · intro x
    exact (h.memE x).trans (and_congr_left (fun _ => hpq x))

theorem BatchInv.fold {c₀ : Cache} {env : ApiEnv} (ds : List Str) :
    ∀ (P : Str → Prop) (acc : BatchAcc), BatchInv c₀ env P acc →
      BatchInv c₀ env (fun x => P x ∨ x ∈ ds) (List.foldl (checkOne env) acc ds) := by
  induction ds with
  | nil =>
    intro P acc h
    exact h.congr (fun x => by simp)
  | cons a t ih =>
    intro P acc h
    simp only [List.foldl_cons]
    exact (ih _ _ (h.step a)).congr (fun x => by
      simp only [List.mem_cons]
      constructor
      · rintro ((hp | rfl) | ht)
        · exact Or.inl hp
        · exact Or.inr (Or.inl rfl)
        · exact Or.inr (Or.inr ht)
      · rintro (hp | (rfl | ht))
        · exact Or.inl (Or.inl hp)
        · exact Or.inl (Or.inr rfl)
        · exact Or.inr ht)

theorem BatchInv.init (c₀ : Cache) (env : ApiEnv)
    (hc : ∀ d r, findRec c₀ d = some r → r.domain = d) :
    BatchInv c₀ env (fun _ => False) ⟨⟨[], [], []⟩, c₀, []⟩ := by
  refine ⟨hc, fun d _ => rfl, ?_, ?_, ?_, ?_, ?_⟩
  · intro d hd
    show findRec c₀ d ≠ none ↔ _
    simp [hd]
  · intro d data r hd he hf
    rw [hd] at hf
    exact Option.noConfusion hf
  · intro d
    simp [availDoms]
  · intro d
    simp [unavailDoms]
  · intro d
    simp [errDoms]

theorem check_domains_batch_inv (env : ApiEnv) (c₀ : Cache) (domains : List Str)
    (hc : ∀ d r, findRec c₀ d = some r → r.domain = d) :
    BatchInv c₀ env (fun x => x ∈ domains) (check_domains_batch env c₀ domains) :=
  (BatchInv.fold domains _ _ (BatchInv.init c₀ env hc)).congr (fun x => by simp)

/-- Claim C1: starting from a key-consistent cache, the three buckets of
`check_domains_batch` are pairwise disjoint on domains and their union is
exactly the input domain set — every input domain is covered (no failure
aborts the batch or drops a domain), and no domain lands in two buckets. -/
theorem check_domains_batch_partition (env : ApiEnv) (c₀ : Cache) (domains : List Str)
    (hc : ∀ d r, findRec c₀ d = some r → r.domain = d) :
    (∀ d, (d ∈ availDoms (check_domains_batch env c₀ domains).results ∨
        d ∈ unavailDoms (check_domains_batch env c₀ domains).results ∨
        d ∈ errDoms (check_domains_batch env c₀ domains).results) ↔ d ∈ domains) ∧
    (∀ d, d ∈ availDoms (check_domains_batch env c₀ domains).results →
        d ∉ unavailDoms (check_domains_batch env c₀ domains).results ∧
        d ∉ errDoms (check_domains_batch env c₀ domains).results) ∧
    (∀ d, d ∈ unavailDoms (check_domains_batch env c₀ domains).results →
        d ∉ errDoms (check_domains_batch env c₀ domains).results) := by
  have h := check_domains_batch_inv env c₀ domains hc
  refine ⟨?_, ?_, ?_⟩
  · intro d
    rw [h.memA d, h.memU d, h.memE d]
    constructor
    · rintro (⟨hd, _⟩ | ⟨hd, _⟩ | ⟨hd, _⟩) <;> exact hd
    · intro hd
      cases hb : bucketOf c₀ env d with
      | avail => exact Or.inl ⟨hd, rfl⟩
      | unavail => exact Or.inr (Or.inl ⟨hd, rfl⟩)
      | err => exact Or.inr (Or.inr ⟨hd, rfl⟩)
  · intro d hA
    obtain ⟨_, hb⟩ := (h.memA d).mp hA
    constructor
    · intro hU
      obtain ⟨_, hb2⟩ := (h.memU d).mp hU
      rw [hb] at hb2
      exact Bucket.noConfusion hb2
    · intro hE
      obtain ⟨_, hb2⟩ := (h.memE d).mp hE
      rw [hb] at hb2
      exact Bucket.noConfusion hb2
  · intro d hU
    obtain ⟨_, hb⟩ := (h.memU d).mp hU
    intro hE
    obtain ⟨_, hb2⟩ := (h.memE d).mp hE
    rw [hb] at hb2
    exact Bucket.noConfusion hb2

/-- Witness for `check_domains_batch_partition`: empty initial cache, one
domain that succeeds and one that times out. -/
theorem check_domains_batch_partition_witness :
    (∀ d r, findRec [] d = some r → r.domain = d) ∧
      ((∀ d, (d ∈ availDoms (check_domains_batch envOkKo [] dwitness).results ∨
          d ∈ unavailDoms (check_domains_batch envOkKo [] dwitness).results ∨
          d ∈ errDoms (check_domains_batch envOkKo [] dwitness).results) ↔ d ∈ dwitness) ∧
      (∀ d, d ∈ availDoms (check_domains_batch envOkKo [] dwitness).results →
          d ∉ unavailDoms (check_domains_batch envOkKo [] dwitness).results ∧
          d ∉ errDoms (check_domains_batch envOkKo [] dwitness).results) ∧
      (∀ d, d ∈ unavailDoms (check_domains_batch envOkKo [] dwitness).results →
          d ∉ errDoms (check_domains_batch envOkKo [] dwitness).results)) :=
  ⟨fun d r hdr => Option.noConfusion hdr,
    check_domains_batch_partition envOkKo [] dwitness
      (fun d r hdr => Option.noConfusion hdr)⟩

/-- Claim C10: starting from a key-consistent cache, `check_domains_batch`
keeps the cache key-consistent (each stored record's `domain` field equals
its key), only ever inserts records obtained from logically successful
lookups, and no domain routed to the errors bucket has a cache entry. -/
theorem check_domains_batch_cache_consistent (env : ApiEnv) (c₀ : Cache)
    (domains : List Str)
    (hc : ∀ d r, findRec c₀ d = some r → r.domain = d) :
    (∀ d r, findRec (check_domains_batch env c₀ domains).cache d = some r →
        r.domain = d) ∧
    (∀ d, findRec (check_domains_batch env c₀ domains).cache d ≠ none →
        findRec c₀ d ≠ none ∨ isSuccessResp (env d) = true) ∧
    (∀ e ∈ (check_domains_batch env c₀ domains).results.errors,
        findRec (check_domains_batch env c₀ domains).cache e.domain = none) := by
  have h := check_domains_batch_inv env c₀ domains hc
  refine ⟨h.keyDom, ?_, ?_⟩
  · intro d hd
    cases h0 : findRec c₀ d with
    | some r =>
      left
      exact fun hcon => Option.noConfusion hcon
    | none =>
      right
      exact ((h.newIff d h0).mp hd).2
  · intro e he
    have hdE : e.domain ∈ errDoms (check_domains_batch env c₀ domains).results :=
      List.mem_map_of_mem (fun e2 => e2.domain) he
    have hb := ((h.memE e.domain).mp hdE).2
    cases hfx : findRec (check_domains_batch env c₀ domains).cache e.domain with
    | none => rfl
    | some r =>
      exfalso
      cases h0 : findRec c₀ e.domain with
      | some r0 =>
        unfold bucketOf at hb
        rw [h0] at hb
        have hb2 : (if r0.available = true then Bucket.avail else Bucket.unavail)
            = Bucket.err := hb
        by_cases hav : r0.available = true
        · rw [if_pos hav] at hb2
          exact Bucket.noConfusion hb2
        · rw [if_neg hav] at hb2
          exact Bucket.noConfusion hb2
      | none =>
        have hnn : findRec (check_domains_batch env c₀ domains).cache e.domain ≠ none := by
          rw [hfx]
          exact fun hcon => Option.noConfusion hcon
        have hs := ((h.newIff e.domain h0).mp hnn).2
        unfold bucketOf at hb
        rw [h0] at hb
        cases henv : env e.domain with
        | success data =>
          rw [henv] at hb
          have hb2 : (if data.available = true then Bucket.avail else Bucket.unavail)
              = Bucket.err := hb
          by_cases hav : data.available = true
          · rw [if_pos hav] at hb2
            exact Bucket.noConfusion hb2
          · rw [if_neg hav] at hb2
            exact Bucket.noConfusion hb2
        | apiError e2 =>
          rw [henv] at hs
          simp [isSuccessResp] at hs
        | httpError status =>
          rw [henv] at hs
          simp [isSuccessResp] at hs
        | timeout =>
          rw [henv] at hs
          simp [isSuccessResp] at hs
        | exn msg =>
          rw [henv] at hs
          simp [isSuccessResp] at hs

/-- Witness for `check_domains_batch_cache_consistent` at the empty cache and
the two-domain batch of `dwitness`. -/
theorem check_domains_batch_cache_consistent_witness :
    (∀ d r, findRec [] d = some r → r.domain = d) ∧
      ((∀ d r, findRec (check_domains_batch envOkKo [] dwitness).cache d = some r →
          r.domain = d) ∧
      (∀ d, findRec (check_domains_batch envOkKo [] dwitness).cache d ≠ none →
          findRec [] d ≠ none ∨ isSuccessResp (envOkKo d) = true) ∧
      (∀ e ∈ (check_domains_batch envOkKo [] dwitness).results.errors,
          findRec (check_domains_batch envOkKo [] dwitness).cache e.domain = none)) :=
  ⟨fun d r hdr => Option.noConfusion hdr,
    check_domains_batch_cache_consistent envOkKo [] dwitness
      (fun d r hdr => Option.noConfusion hdr)⟩

/-! ### The conversation handler never drops a turn (C4) -/

theorem process_domain_search_sent_ne (env : ApiEnv) (cache : Cache) (state : UserState)
    (sender input mid now : Str) (sa : Bool) :
    (process_domain_search env cache state sender input mid now sa).sent ≠ [] := by
  unfold process_domain_search
  cases hp : parsedBase (parse_domain_input input) with
  | none => simp [hp]
  | some b => simp [hp]

theorem process_domain_search_step_inv (env : ApiEnv) (cache : Cache) (state : UserState)
    (sender input mid now : Str) (sa : Bool)
    (hinv : state.step = str "results" → state.current_domain ≠ none) :
    (process_domain_search env cache state sender input mid now sa).state.step
        = str "results" →
      (process_domain_search env cache state sender input mid now sa).state.current_domain
        ≠ none := by
  unfold process_domain_search
  cases hp : parsedBase (parse_domain_input input) with
  | none =>
    simp only [hp]
    exact fun hstep => hinv hstep
  | some b =>
    simp [hp, beginSearch]

/-- Claim C4 (amended): for every stored state in which a step of RESULTS
comes with a stored `current_domain` — true of every state the handlers
themselves produce — `handle_user_message` never silently drops the turn: it
always hands at least one reply to the dispatcher (and it preserves that
RESULTS-implies-current_domain invariant). -/
theorem handle_user_message_always_replies (env : ApiEnv) (cache : Cache)
    (state : UserState) (sender message_text mid now : Str)
    (hinv : state.step = str "results" → state.current_domain ≠ none) :
    (handle_user_message env cache state sender message_text mid now).sent ≠ [] ∧
    ((handle_user_message env cache state sender message_text mid now).state.step
        = str "results" →
      (handle_user_message env cache state sender message_text mid now).state.current_domain
        ≠ none) := by
  simp only [handle_user_message]
  split_ifs with hg hsearch hdt hres1 hres2
  · refine ⟨by simp [send_welcome_message], fun hstep => ?_⟩
    have h2 : str "greeting" = str "results" := hstep
    exact absurd h2 (by decide)
  · exact ⟨process_domain_search_sent_ne env cache state sender _ mid now false,
      process_domain_search_step_inv env cache state sender _ mid now false hinv⟩
  · refine ⟨by simp [send_search_prompt], fun hstep => ?_⟩
    have h2 : str "searching" = str "results" := hstep
    exact absurd h2 (by decide)
  · cases hd : state.current_domain with
    | some last_domain =>
      exact ⟨process_domain_search_sent_ne env cache state sender last_domain mid now true,
        process_domain_search_step_inv env cache state sender last_domain mid now true hinv⟩
    | none => exact absurd hd (hinv hres1.1)
  · refine ⟨by simp [send_search_prompt], fun hstep => ?_⟩
    have h2 : str "searching" = str "results" := hstep
    exact absurd h2 (by decide)
  · exact ⟨process_domain_search_sent_ne env cache state sender _ mid now false,
      process_domain_search_step_inv env cache state sender _ mid now false hinv⟩

/-- Witness for `handle_user_message_always_replies`: a fresh user sending
`"mycompany"`. -/
theorem handle_user_message_always_replies_witness :
    ((initial_user_state (str "t0")).step = str "results" →
        (initial_user_state (str "t0")).current_domain ≠ none) ∧
      ((handle_user_message envT [] (initial_user_state (str "t0")) (str "u")
          (str "mycompany") (str "m1") (str "t1")).sent ≠ [] ∧
        ((handle_user_message envT [] (initial_user_state (str "t0")) (str "u")
            (str "mycompany") (str "m1") (str "t1")).state.step = str "results" →
          (handle_user_message envT [] (initial_user_state (str "t0")) (str "u")
            (str "mycompany") (str "m1") (str "t1")).state.current_domain ≠ none)) :=
  ⟨by decide, handle_user_message_always_replies envT [] (initial_user_state (str "t0"))
    (str "u") (str "mycompany") (str "m1") (str "t1") (by decide)⟩

/-- Claim C4, counterexample: in the (handler-unreachable) state with step
RESULTS and no stored `current_domain`, the follow-up text `"more"` produces
no reply at all — the turn is silently dropped, no message is handed to the
dispatcher and no search is run. -/
theorem results_more_without_domain_drops_turn :
    (handle_user_message envT []
      { step := str "results", search_history := [], current_domain := none,
        preferred_extensions := [], last_results := none, last_activity := str "t0" }
      (str "u") (str "more") (str "m1") (str "t1")).sent = [] := by
  decide

/-! ### The welcome message (C6) -/

set_option maxRecDepth 40000 in
/-- Claim C6 (amended): a fresh user sending `"hi"` is moved to step GREETING
and receives a welcome message whose body contains each of the first six
configured extensions (the source builds the list from
`list(DOMAIN_EXTENSIONS.items())[:6]`, not all nine). -/
theorem fresh_hi_welcome (env : ApiEnv) (cache : Cache) (sender mid now t0 : Str) :
    (handle_user_message env cache (initial_user_state t0) sender (str "hi")
        mid now).state.step = str "greeting" ∧
    ((DOMAIN_EXTENSIONS.take 6).map (fun p => p.1)).all
      (fun ext => (handle_user_message env cache (initial_user_state t0) sender
        (str "hi") mid now).sent.any (fun m => hasSub ext m.body)) = true :=
  ⟨rfl, rfl⟩

set_option maxRecDepth 40000 in
/-- Claim C6, counterexample: the welcome body does not contain every one of
the nine configured extensions — `.sc.ke`, `.me.ke` and `.info.ke` are cut by
the `[:6]` slice (the body says "...and more!" instead). -/
theorem fresh_hi_welcome_missing_extensions :
    ((DOMAIN_EXTENSIONS.map (fun p => p.1)).all
      (fun ext => (handle_user_message envT [] (initial_user_state (str "t0")) (str "u")
        (str "hi") (str "m1") (str "t1")).sent.any (fun m => hasSub ext m.body))) = false := by
  decide

/-! ### The bounded status store (C9) -/

theorem length_insertBy {α : Type} (le : α → α → Bool) (a : α) (l : List α) :
    (insertBy le a l).length = l.length + 1 := by
  induction l with
  | nil => rfl
  | cons b bs ih =>
    unfold insertBy
    by_cases h : le a b
    · rw [if_pos h]
      simp
    · rw [if_neg h]
      simp [ih]

theorem length_sortBy {α : Type} (le : α → α → Bool) (l : List α) :
    (sortBy le l).length = l.length := by
  induction l with
  | nil => rfl
  | cons a as ih =>
    unfold sortBy
    rw [length_insertBy, ih]
    rfl

theorem mem_insertBy {α : Type} (le : α → α → Bool) (a x : α) (l : List α)
    (h : x ∈ insertBy le a l) : x = a ∨ x ∈ l := by
  induction l with
  | nil => exact Or.inl (List.mem_singleton.mp h)
  | cons b bs ih =>
    unfold insertBy at h
    by_cases hle : le a b
    · rw [if_pos hle] at h
      rcases List.mem_cons.mp h with rfl | h2
      · exact Or.inl rfl
      · exact Or.inr h2
    · rw [if_neg hle] at h
      rcases List.mem_cons.mp h with rfl | h2
      · exact Or.inr (List.mem_cons_self _ _)
      · rcases ih h2 with rfl | h3
        · exact Or.inl rfl
        · exact Or.inr (List.mem_cons_of_mem _ h3)

theorem mem_sortBy {α : Type} (le : α → α → Bool) (x : α) (l : List α)
    (h : x ∈ sortBy le l) : x ∈ l := by
  induction l with
  | nil => exact absurd h (List.not_mem_nil x)
  | cons a as ih =>
    unfold sortBy at h
    rcases mem_insertBy le a x _ h with rfl | h2
    · exact List.mem_cons_self _ _
    · exact List.mem_cons_of_mem _ (ih h2)

theorem delStatusKey_length_le (k : Str) (m : StatusMap) :
    (delStatusKey k m).length ≤ m.length :=
  List.length_filter_le _ m

theorem foldl_del_length_le (ks : List Str) (m : StatusMap) :
    (ks.foldl (fun acc k => delStatusKey k acc) m).length ≤ m.length := by
  induction ks generalizing m with
  | nil => exact le_refl _
  | cons k t ih =>
    exact le_trans (ih (delStatusKey k m)) (delStatusKey_length_le k m)

theorem delStatusKey_length_lt (k : Str) (m : StatusMap)
    (hk : k ∈ m.map (fun p => p.1)) :
    (delStatusKey k m).length < m.length := by
  apply List.length_filter_lt_length_iff_exists.mpr
  obtain ⟨p, hp, hpk⟩ := List.mem_map.mp hk
  exact ⟨p, hp, by simp [hpk]⟩

theorem evictOldest_length_lt (m : StatusMap) (hm : m ≠ []) :
    (evictOldest m).length < m.length := by
  unfold evictOldest
  have hlen : (sortBy (fun a b => strLe (luKey m a) (luKey m b))
      (m.map (fun p => p.1))).length = m.length := by
    rw [length_sortBy, List.length_map]
  cases hsk : sortBy (fun a b => strLe (luKey m a) (luKey m b)) (m.map (fun p => p.1)) with
  | nil =>
    rw [hsk] at hlen
    exact absurd (List.length_eq_zero.mp hlen.symm) hm
  | cons k0 rest =>
    have htake : (k0 :: rest).take 100 = k0 :: rest.take 99 := rfl
    show (List.foldl (fun acc k => delStatusKey k acc) m ((k0 :: rest).take 100)).length
      < m.length
    rw [htake, List.foldl_cons]
    have h1 : k0 ∈ m.map (fun p => p.1) := by
      apply mem_sortBy (fun a b => strLe (luKey m a) (luKey m b))
      rw [hsk]
      exact List.mem_cons_self _ _
    exact lt_of_le_of_lt (foldl_del_length_le _ _) (delStatusKey_length_lt k0 m h1)

/-- Claim C9: if `message_statuses` holds at most `MAX_STATUS_RECORDS` (1000)
entries before a `store_message_status` call, it holds at most 1000 after —
at the limit, the call first evicts the 100 oldest records before inserting,
so the bound is an invariant of every store operation. -/
theorem store_message_status_bounded (m : StatusMap)
    (message_id status recipient timestamp : Str)
    (metadata : Option (List (Str × Str)))
    (h : m.length ≤ MAX_STATUS_RECORDS) :
    (store_message_status m message_id status recipient timestamp metadata).length
      ≤ MAX_STATUS_RECORDS := by
  have hMAX : MAX_STATUS_RECORDS = 1000 := rfl
  have h1 : (if m.length ≥ MAX_STATUS_RECORDS then evictOldest m else m).length + 1
      ≤ MAX_STATUS_RECORDS := by
    by_cases hge : m.length ≥ MAX_STATUS_RECORDS
    · rw [if_pos hge]
      have hm : m ≠ [] := by
        intro hnil
        rw [hnil] at hge
        exact absurd hge (by decide)
      have hlt := evictOldest_length_lt m hm
      rw [hMAX] at hge ⊢
      omega
    · rw [if_neg hge]
      rw [hMAX] at hge ⊢
      omega
  simp only [store_message_status]
  rw [List.length_map]
  split
  · rw [List.length_append]
    rw [hMAX] at h1 ⊢
    simp only [List.length_singleton]
    omega
  · rw [hMAX] at h1 ⊢
    omega

/-- Witness for `store_message_status_bounded` at the empty status map. -/
theorem store_message_status_bounded_witness :
    ([] : StatusMap).length ≤ MAX_STATUS_RECORDS ∧
      (store_message_status [] (str "m1") (str "sent") (str "u") (str "t") none).length
        ≤ MAX_STATUS_RECORDS :=
  ⟨by decide, store_message_status_bounded [] (str "m1") (str "sent") (str "u") (str "t")
    none (by decide)⟩

end DomainBot
